import Mathlib

/-!
# Verification of the depth-1 GTP Othello server

Shallow embedding of `src/sensei-engine/gtp_depth1/sensei_depth1_gtp_main.cpp`:
a line-oriented command server for Othello with a depth-1 greedy move
selector.  The external board / move-generation / evaluator modules
(`board.h`, `get_moves.h`, `get_flip.h`, `pattern_evaluator.h`) are not part
of the given sources; they are modelled from the specification as an abstract
interface `Externals` below, carrying only the contracts the specification states
(64-bit bit patterns; a pass, i.e. a zero flip mask, swaps the two masks
without changing occupancy).
-/

/-- Whitespace characters used by stream tokenization (`operator>>`) and by
`find_first_not_of(" \t\r\n")` in the main loop of the source. -/
def isWsChar (c : Char) : Bool := c = ' ' || c = '\t' || c = '\r' || c = '\n'

/-- Tokens of a line: the maximal runs of non-whitespace characters, in
order.  This models repeated `stringstream` extraction (`ss >> tok`). -/
def tokenize (s : String) : List String :=
  ((s.data.splitOnP isWsChar).filter (fun t => t ≠ [])).map (fun cs => String.mk cs)

/-- ASCII lowercasing of a whole string, as the `tolower` loops in the
source (`ParseColor`, command-verb normalisation). -/
def strLower (s : String) : String := String.mk (s.data.map Char.toLower)

/-- `ParseColor` (source lines 28-34): lowercase the token and accept
exactly "b"/"black" (black = `true`) and "w"/"white" (white = `false`). -/
def ParseColor (s : String) : Option Bool :=
  let t := strLower s
  if t = "b" ∨ t = "black" then some true
  else if t = "w" ∨ t = "white" then some false
  else none

/-- Result of a successful `ParseCoord`: a pass, or a square index 0-63. -/
inductive Coord where
  | pass : Coord
  | sq (n : Nat) : Coord
deriving DecidableEq, Repr

/-- `ParseCoord` (source lines 36-48).  The pass test compares the raw token
with exactly "PASS" or "pass" (no lowercasing happens before it); only the
file character of a two-character token is lowercased. -/
def ParseCoord (s : String) : Option Coord :=
  if s = "PASS" ∨ s = "pass" then some .pass
  else
    match s.data with
    | [c0, c1] =>
      let file := c0.toLower
      if file < 'a' ∨ 'h' < file then none
      else if c1 < '1' ∨ '8' < c1 then none
      else some (.sq ((c1.toNat - '1'.toNat) * 8 + (file.toNat - 'a'.toNat)))
    | _ => none

/-- `SqToCoord` (source lines 50-57): square index to lowercase algebraic
coordinate, `sq = y*8 + x` with file `x = sq % 8` and rank `y = sq / 8`. -/
def SqToCoord (sq : Nat) : String :=
  String.mk [Char.ofNat ('a'.toNat + sq % 8), Char.ofNat ('1'.toNat + sq / 8)]

example : ParseCoord "a1" = some (.sq 0) := by decide
example : ParseCoord "h8" = some (.sq 63) := by decide
example : ParseCoord "PASS" = some .pass := by decide
example : ParseCoord "Pass" = none := by decide
example : SqToCoord 63 = "h8" := by decide
example : tokenize "  play b  d3 " = ["play", "b", "d3"] := by decide
example : ParseColor "Black" = some true := by decide

/-- Modelled from the spec: the external board / move-generation / evaluator
modules (`board.h`, `get_moves.h`, `get_flip.h`, `pattern_evaluator.h`),
which are not among the given sources.  `getMoves p o` is the legal-move
mask for the mover `p` against `o`; `getFlip sq p o` the flip mask of a move;
`newPlayer`/`newOpponent` are the board update used by `Board::PlayMove`;
`evaluate p o` the pattern evaluator's score of the position from the
mover's perspective.  Contracts from the spec: a `BitPattern` is a 64-bit
mask, and a pass (`flip = 0`) swaps the two masks without changing
occupancy. -/
structure Externals where
  getMoves : Nat → Nat → Nat
  getFlip : Nat → Nat → Nat → Nat
  newPlayer : Nat → Nat → Nat
  newOpponent : Nat → Nat → Nat
  evaluate : Nat → Nat → Int
  getMoves_lt : ∀ p o, getMoves p o < 2 ^ 64
  newPlayer_zero : ∀ o, newPlayer 0 o = o
  newOpponent_zero : ∀ p, newOpponent 0 p = p

/-- The two 64-bit disc masks, stored from the acting side's perspective. -/
structure Board where
  player : Nat
  opponent : Nat
deriving DecidableEq, Repr

/-- Modelled from the spec: `Board::PlayMove(flip)` updates the masks and
swaps the perspective, handing the position to the next mover. -/
def PlayMove (E : Externals) (b : Board) (flip : Nat) : Board :=
  { player := E.newPlayer flip b.opponent, opponent := E.newOpponent flip b.player }

/-- Modelled from the spec: the standard 4-disc starting position produced
by `Board()`, black (the first mover) on e4/d5, white on d4/e5. -/
def initBoard : Board := { player := 2 ^ 28 + 2 ^ 35, opponent := 2 ^ 27 + 2 ^ 36 }

/-- `GameState` (source lines 59-62): the board plus the absolute color of
the side to move. -/
structure GameState where
  board : Board
  stm_is_black : Bool
deriving DecidableEq, Repr

/-- `Reset` (source lines 64-67). -/
def Reset : GameState := { board := initBoard, stm_is_black := true }

/-- `ApplyPass` (source lines 69-72): a zero-flip `PlayMove` plus a toggle
of the side to move. -/
def ApplyPass (E : Externals) (st : GameState) : GameState :=
  { board := PlayMove E st.board 0, stm_is_black := !st.stm_is_black }

/-- `ApplyMove` (source lines 74-81).  `none` models the `false` return (the
square is not in the legal-move mask; the C++ leaves the state untouched). -/
def ApplyMove (E : Externals) (st : GameState) (mv : Nat) : Option GameState :=
  let moves := E.getMoves st.board.player st.board.opponent
  if (moves >>> mv) &&& 1 = 0 then none
  else
    let flip := E.getFlip mv st.board.player st.board.opponent
    some { board := PlayMove E st.board flip, stm_is_black := !st.stm_is_black }

/-- Modelled from the spec: `IsGameOver` from `board.h` — the game is over
iff neither the mover nor the opponent has a legal move.  `IsOver` (source
line 83) delegates to it. -/
def IsOver (E : Externals) (st : GameState) : Bool :=
  (E.getMoves st.board.player st.board.opponent == 0) &&
    (E.getMoves st.board.opponent st.board.player == 0)

/-- `__builtin_popcountll`: population count of a 64-bit value. -/
def popcount (n : Nat) : Nat :=
  if h : n = 0 then 0 else n % 2 + popcount (n / 2)
termination_by n
decreasing_by exact Nat.div_lt_self (Nat.pos_of_ne_zero h) one_lt_two

/-- `CountDiscsAbs` (source lines 85-91): absolute (black, white) disc
counts, translated from the mover/other masks through `stm_is_black`. -/
def CountDiscsAbs (st : GameState) : Nat × Nat :=
  let black := if st.stm_is_black then st.board.player else st.board.opponent
  let white := if st.stm_is_black then st.board.opponent else st.board.player
  (popcount black, popcount white)

/-- `__builtin_ctzll`: the number of trailing zero bits of a nonzero 64-bit
value (the C builtin is undefined at 0; the selection loop only applies it
to a nonzero single-bit value). -/
def ctz (n : Nat) : Nat :=
  if h : n = 0 then 0
  else if n % 2 = 1 then 0
  else ctz (n / 2) + 1
termination_by n
decreasing_by exact Nat.div_lt_self (Nat.pos_of_ne_zero h) one_lt_two

/-! ## Bit-level facts about the lowest-set-bit extraction

The selection loop of `genmove` repeatedly isolates the lowest set bit of
the remaining move mask via `rem & (0ULL - rem)`; over `Nat`, with
`rem < 2^64` and `rem ≠ 0`, the two's-complement negation `0ULL - rem` is
`2^64 - rem`.  The lemmas below identify `rem &&& (2^64 - rem)` with
`2 ^ ctz rem` and show that clearing that bit decreases `rem`. -/

theorem land_mod_two (a b : Nat) : (a &&& b) % 2 = (a % 2) &&& (b % 2) := by
  have h := Nat.testBit_and a b 0
  simp only [Nat.testBit_zero] at h
  rcases Nat.mod_two_eq_zero_or_one a with ha | ha <;>
    rcases Nat.mod_two_eq_zero_or_one b with hb | hb <;>
      rcases Nat.mod_two_eq_zero_or_one (a &&& b) with hc | hc <;>
        simp [ha, hb, hc] at h ⊢

theorem land_decomp (a b : Nat) :
    a &&& b = 2 * (a / 2 &&& b / 2) + ((a % 2) &&& (b % 2)) := by
  conv_lhs => rw [← Nat.div_add_mod (a &&& b) 2]
  rw [Nat.and_div_two, land_mod_two]

theorem comp_land_self (w : Nat) : ∀ q, q ≤ 2 ^ w - 1 → q &&& (2 ^ w - 1 - q) = 0 := by
  induction w with
  | zero =>
    intro q hq
    have : q = 0 := by simpa using hq
    simp [this]
  | succ w ih =>
    intro q hq
    have hA : 0 < 2 ^ w := Nat.pos_pow_of_pos w (by norm_num)
    have h2 : 2 ^ (w + 1) = 2 * 2 ^ w := by ring
    have h1 : (2 ^ (w + 1) - 1 - q) / 2 = 2 ^ w - 1 - q / 2 := by omega
    have hmod : (2 ^ (w + 1) - 1 - q) % 2 = 1 - q % 2 := by omega
    rw [land_decomp, h1, hmod, ih (q / 2) (by omega)]
    have hpar : q % 2 &&& (1 - q % 2) = 0 := by
      rcases Nat.mod_two_eq_zero_or_one q with h | h <;> simp [h]
    rw [hpar]

theorem ctz_odd {n : Nat} (h : n % 2 = 1) : ctz n = 0 := by
  rw [ctz]
  have h0 : n ≠ 0 := by omega
  simp [h0, h]

theorem ctz_even {n : Nat} (h0 : n ≠ 0) (h : n % 2 = 0) : ctz n = ctz (n / 2) + 1 := by
  rw [ctz]
  simp [h0, h]

theorem land_sub_eq_pow_ctz (w : Nat) :
    ∀ n, 0 < n → n < 2 ^ w → n &&& (2 ^ w - n) = 2 ^ ctz n := by
  induction w with
  | zero =>
    intro n h0 h1
    simp at h1
    omega
  | succ w ih =>
    intro n h0 h1
    have hA : 0 < 2 ^ w := Nat.pos_pow_of_pos w (by norm_num)
    have h2 : 2 ^ (w + 1) = 2 * 2 ^ w := by ring
    rcases Nat.mod_two_eq_zero_or_one n with he | ho
    · have hdiv : (2 ^ (w + 1) - n) / 2 = 2 ^ w - n / 2 := by omega
      have hmod : (2 ^ (w + 1) - n) % 2 = 0 := by omega
      rw [land_decomp, hdiv, hmod, he, ih (n / 2) (by omega) (by omega)]
      rw [ctz_even (by omega) he, pow_succ]
      simp [Nat.mul_comm]
    · have hdiv : (2 ^ (w + 1) - n) / 2 = 2 ^ w - 1 - n / 2 := by omega
      have hmod : (2 ^ (w + 1) - n) % 2 = 1 := by omega
      rw [land_decomp, hdiv, hmod, ho, comp_land_self w (n / 2) (by omega)]
      rw [ctz_odd ho]
      decide

theorem ctz_two_pow (k : Nat) : ctz (2 ^ k) = k := by
  induction k with
  | zero => exact ctz_odd (by norm_num)
  | succ k ih =>
    have h2 : 2 ^ (k + 1) = 2 * 2 ^ k := by ring
    have hA : 0 < 2 ^ k := Nat.pos_pow_of_pos k (by norm_num)
    rw [ctz_even (by omega) (by omega), show 2 ^ (k + 1) / 2 = 2 ^ k by omega, ih]

theorem testBit_ctz_self (n : Nat) (h : n ≠ 0) : n.testBit (ctz n) = true := by
  induction n using Nat.strong_induction_on with
  | _ n ih =>
    rcases Nat.mod_two_eq_zero_or_one n with he | ho
    · rw [ctz_even h he, Nat.testBit_succ]
      exact ih (n / 2) (Nat.div_lt_self (Nat.pos_of_ne_zero h) one_lt_two) (by omega)
    · rw [ctz_odd ho, Nat.testBit_zero]
      simp [ho]

theorem testBit_lt_ctz (n : Nat) : ∀ i, i < ctz n → n.testBit i = false := by
  induction n using Nat.strong_induction_on with
  | _ n ih =>
    intro i hi
    rcases Nat.eq_zero_or_pos n with rfl | hn
    · simp
    rcases Nat.mod_two_eq_zero_or_one n with he | ho
    · rw [ctz_even (by omega) he] at hi
      match i with
      | 0 => rw [Nat.testBit_zero]; simp [he]
      | j + 1 =>
        rw [Nat.testBit_succ]
        exact ih (n / 2) (Nat.div_lt_self hn one_lt_two) j (by omega)
    · rw [ctz_odd ho] at hi
      omega

theorem ctz_le_of_testBit {n j : Nat} (h : n.testBit j = true) : ctz n ≤ j := by
  by_contra hc
  rw [testBit_lt_ctz n j (by omega)] at h
  exact Bool.false_ne_true h

theorem xor_lowbit_testBit_self {n : Nat} (h : n ≠ 0) :
    (n ^^^ 2 ^ ctz n).testBit (ctz n) = false := by
  rw [Nat.testBit_xor, testBit_ctz_self n h, Nat.testBit_two_pow]
  simp

theorem xor_lowbit_testBit_ne {n j : Nat} (hj : j ≠ ctz n) :
    (n ^^^ 2 ^ ctz n).testBit j = n.testBit j := by
  rw [Nat.testBit_xor, Nat.testBit_two_pow]
  simp [Ne.symm hj]

theorem xor_lowbit_lt {n : Nat} (h : n ≠ 0) : n ^^^ 2 ^ ctz n < n := by
  apply Nat.lt_of_testBit (ctz n) (xor_lowbit_testBit_self h) (testBit_ctz_self n h)
  intro j hj
  exact xor_lowbit_testBit_ne (by omega)

theorem lowbit64 {n : Nat} (h0 : n ≠ 0) (h1 : n < 2 ^ 64) :
    n &&& (2 ^ 64 - n) = 2 ^ ctz n :=
  land_sub_eq_pow_ctz 64 n (Nat.pos_of_ne_zero h0) h1

theorem xor_lowbit64_lt {n : Nat} (h0 : n ≠ 0) (h1 : n < 2 ^ 64) :
    n ^^^ (n &&& (2 ^ 64 - n)) < n := by
  rw [lowbit64 h0 h1]
  exact xor_lowbit_lt h0

/-- The `genmove` selection loop (source lines 182-201).  `rem` is the
remaining move mask (a 64-bit value, hence the `hrem` bound); each round
extracts the lowest set bit `sq_bb = rem & (0ULL - rem)` (over `Nat`:
`rem &&& (2^64 - rem)`, since `rem ≠ 0` inside the loop), clears it, scores
the position after that move and keeps it iff its negated score is strictly
greater than the best so far. -/
def genLoop (E : Externals) (p o : Nat) (rem : Nat) (hrem : rem < 2 ^ 64)
    (best_move best_score : Int) : Int × Int :=
  if h : rem = 0 then (best_move, best_score)
  else
    let sq_bb := rem &&& (2 ^ 64 - rem)
    let mv := ctz sq_bb
    let flip := E.getFlip mv p o
    let next_player := E.newPlayer flip o
    let next_opp := E.newOpponent flip p
    let score := - E.evaluate next_player next_opp
    if score > best_score then
      genLoop E p o (rem ^^^ sq_bb) (lt_trans (xor_lowbit64_lt h hrem) hrem) (mv : Int) score
    else
      genLoop E p o (rem ^^^ sq_bb) (lt_trans (xor_lowbit64_lt h hrem) hrem) best_move best_score
termination_by rem
decreasing_by
  · exact xor_lowbit64_lt h hrem
  · exact xor_lowbit64_lt h hrem

/-- A reply of the server: success or error, each echoing the request id
(`-1` = absent), or no reply at all (blank line / missing verb). -/
inductive Resp where
  | ok (id : Int) (payload : String)
  | err (id : Int) (msg : String)
  | silent
deriving DecidableEq, Repr

/-- The command dispatch of `main` (source lines 138-219), applied to the
request id and the whitespace tokens that remain after id extraction.  The
returned `Bool` is the quit flag that breaks the request loop. -/
def dispatch (E : Externals) (evalsLoaded : Bool) (st : GameState) (id : Int)
    (toks : List String) : GameState × Resp × Bool :=
  let cmd := strLower (toks.headD "")
  if cmd = "" then (st, .silent, false)
  else if cmd = "quit" ∨ cmd = "exit" then (st, .ok id "", true)
  else if cmd = "clear_board" then (Reset, .ok id "", false)
  else if cmd = "play" then
    let color_s := toks.tail.headD ""
    let coord_s := toks.tail.tail.headD ""
    match ParseColor color_s with
    | none => (st, .err id "illegal color", false)
    | some is_black =>
      match ParseCoord coord_s with
      | none => (st, .err id "illegal move", false)
      | some c =>
        if is_black ≠ st.stm_is_black then (st, .err id "wrong color to play", false)
        else
          match c with
          | .pass => (ApplyPass E st, .ok id "", false)
          | .sq sq =>
            match ApplyMove E st sq with
            | none => (st, .err id "illegal move", false)
            | some st' => (st', .ok id "", false)
  else if cmd = "genmove" then
    let color_s := toks.tail.headD ""
    match ParseColor color_s with
    | none => (st, .err id "illegal color", false)
    | some is_black =>
      if evalsLoaded = false then (st, .err id "evals not loaded", false)
      else if is_black ≠ st.stm_is_black then (st, .err id "wrong color to play", false)
      else
        let p := st.board.player
        let o := st.board.opponent
        let moves := E.getMoves p o
        if moves = 0 then (ApplyPass E st, .ok id "PASS", false)
        else
          let bm := (genLoop E p o moves (E.getMoves_lt p o) (-1) (-1000000000)).1
          -- `(Square)best_move` for the never-replaced sentinel -1 would be
          -- an out-of-range cast in the C++; modelled like the failing
          -- `ApplyMove` path there (state unchanged)
          let st' := if bm < 0 then st else (ApplyMove E st bm.toNat).getD st
          (st', .ok id (SqToCoord bm.toNat), false)
  else if cmd = "final_score" then
    if IsOver E st = false then (st, .err id "game not over", false)
    else
      let nb := (CountDiscsAbs st).1
      let nw := (CountDiscsAbs st).2
      let diff : Int := (nb : Int) - (nw : Int)
      let r := if diff > 0 then "B+" ++ toString diff
               else if diff < 0 then "W+" ++ toString (-diff)
               else "0"
      (st, .ok id r, false)
  else (st, .err id "unknown command", false)

/-- `INT_MAX`: the largest value `std::stoi` can return. -/
def intMax : Nat := 2147483647

/-- The numeric value of an all-digits token, as `std::stoi` computes it
before range checking. -/
def digitsVal (s : String) : Nat :=
  s.data.foldl (fun a c => a * 10 + (c.toNat - '0'.toNat)) 0

/-- One iteration of the request loop (source lines 110-220): the blank-line
check, the optional leading numeric id, and the dispatch.  `none` models the
uncaught `std::out_of_range` that `stoi` throws on an all-digits token whose
value exceeds `INT_MAX`, which terminates the process. -/
def processLine (E : Externals) (evalsLoaded : Bool) (st : GameState) (line : String) :
    Option (GameState × Resp × Bool) :=
  if line = "" then some (st, .silent, false)
  else
    let toks := tokenize line
    let tok := toks.headD ""
    if tok ≠ "" ∧ tok.data.all Char.isDigit then
      if digitsVal tok ≤ intMax then
        some (dispatch E evalsLoaded st (Int.ofNat (digitsVal tok)) toks.tail)
      else none
    else some (dispatch E evalsLoaded st (-1) toks)

/-- The score the selection loop assigns to square `mv`: the evaluator's
value of the position after the move, negated to the mover's perspective
(source lines 191-198). -/
def moveScore (E : Externals) (p o : Nat) (mv : Nat) : Int :=
  - E.evaluate (E.newPlayer (E.getFlip mv p o) o) (E.newOpponent (E.getFlip mv p o) p)

theorem genLoop_unfold (E : Externals) (p o rem : Nat) (hrem : rem < 2 ^ 64) (bm bs : Int)
    (h0 : rem ≠ 0) :
    genLoop E p o rem hrem bm bs =
      if moveScore E p o (ctz rem) > bs then
        genLoop E p o (rem ^^^ 2 ^ ctz rem)
          (lt_trans (xor_lowbit_lt h0) hrem) ((ctz rem : Int)) (moveScore E p o (ctz rem))
      else
        genLoop E p o (rem ^^^ 2 ^ ctz rem)
          (lt_trans (xor_lowbit_lt h0) hrem) bm bs := by
  conv_lhs => rw [genLoop]
  rw [dif_neg h0]
  have hbb : rem &&& (2 ^ 64 - rem) = 2 ^ ctz rem := lowbit64 h0 hrem
  simp only [hbb, ctz_two_pow, moveScore]

theorem genLoop_spec (E : Externals) (p o : Nat) :
    ∀ rem, ∀ (hrem : rem < 2 ^ 64) (bm bs : Int),
      ((∀ j, rem.testBit j = true → moveScore E p o j ≤ bs) →
          genLoop E p o rem hrem bm bs = (bm, bs)) ∧
      ((∃ j, rem.testBit j = true ∧ bs < moveScore E p o j) →
          ∃ b : Nat, genLoop E p o rem hrem bm bs = ((b : Int), moveScore E p o b) ∧
            rem.testBit b = true ∧ bs < moveScore E p o b ∧
            (∀ j, rem.testBit j = true → moveScore E p o j ≤ moveScore E p o b) ∧
            (∀ j, rem.testBit j = true → moveScore E p o j = moveScore E p o b → b ≤ j)) := by
  intro rem
  induction rem using Nat.strong_induction_on with
  | _ rem ih =>
    intro hrem bm bs
    by_cases h0 : rem = 0
    · subst h0
      refine ⟨fun _ => by rw [genLoop]; simp, ?_⟩
      rintro ⟨j, hj, -⟩
      simp [Nat.zero_testBit] at hj
    · have hcbit : rem.testBit (ctz rem) = true := testBit_ctz_self rem h0
      have hlt : rem ^^^ 2 ^ ctz rem < rem := xor_lowbit_lt h0
      have hrem' : rem ^^^ 2 ^ ctz rem < 2 ^ 64 := lt_trans hlt hrem
      have hbits : ∀ j, (rem ^^^ 2 ^ ctz rem).testBit j = true ↔
          rem.testBit j = true ∧ j ≠ ctz rem := by
        intro j
        by_cases hj : j = ctz rem
        · subst hj
          rw [xor_lowbit_testBit_self h0]
          simp
        · rw [xor_lowbit_testBit_ne hj]
          simp [hj]
      have hmin : ∀ j, rem.testBit j = true → ctz rem ≤ j := fun j hj => ctz_le_of_testBit hj
      by_cases hgt : moveScore E p o (ctz rem) > bs
      · have hunf : genLoop E p o rem hrem bm bs =
            genLoop E p o (rem ^^^ 2 ^ ctz rem) hrem'
              ((ctz rem : Int)) (moveScore E p o (ctz rem)) := by
          rw [genLoop_unfold E p o rem hrem bm bs h0, if_pos hgt]
        constructor
        · intro hall
          have := hall (ctz rem) hcbit
          omega
        · intro _
          by_cases h2 : ∃ j, (rem ^^^ 2 ^ ctz rem).testBit j = true ∧
              moveScore E p o (ctz rem) < moveScore E p o j
          · obtain ⟨b, hb_eq, hb_bit, hb_gt, hb_max, hb_min⟩ :=
              ((ih _ hlt hrem' ((ctz rem : Int)) (moveScore E p o (ctz rem))).2) h2
            refine ⟨b, by rw [hunf, hb_eq], ((hbits b).mp hb_bit).1, by omega, ?_, ?_⟩
            · intro j hj
              by_cases hjc : j = ctz rem
              · subst hjc; omega
              · exact hb_max j ((hbits j).mpr ⟨hj, hjc⟩)
            · intro j hj he
              by_cases hjc : j = ctz rem
              · subst hjc; omega
              · exact hb_min j ((hbits j).mpr ⟨hj, hjc⟩) he
          · push_neg at h2
            have hall' : ∀ j, (rem ^^^ 2 ^ ctz rem).testBit j = true →
                moveScore E p o j ≤ moveScore E p o (ctz rem) := fun j hj => h2 j hj
            have hstop :=
              ((ih _ hlt hrem' ((ctz rem : Int)) (moveScore E p o (ctz rem))).1) hall'
            refine ⟨ctz rem, by rw [hunf, hstop], hcbit, hgt, ?_, ?_⟩
            · intro j hj
              by_cases hjc : j = ctz rem
              · subst hjc; exact le_refl _
              · exact hall' j ((hbits j).mpr ⟨hj, hjc⟩)
            · intro j hj _
              exact hmin j hj
      · have hunf : genLoop E p o rem hrem bm bs =
            genLoop E p o (rem ^^^ 2 ^ ctz rem) hrem' bm bs := by
          rw [genLoop_unfold E p o rem hrem bm bs h0, if_neg hgt]
        have hsle : moveScore E p o (ctz rem) ≤ bs := not_lt.mp hgt
        constructor
        · intro hall
          have hall' : ∀ j, (rem ^^^ 2 ^ ctz rem).testBit j = true →
              moveScore E p o j ≤ bs := fun j hj => hall j ((hbits j).mp hj).1
          rw [hunf]
          exact ((ih _ hlt hrem' bm bs).1) hall'
        · rintro ⟨j0, hj0, hj0gt⟩
          have hj0c : j0 ≠ ctz rem := by
            intro hh
            rw [hh] at hj0gt
            omega
          obtain ⟨b, hb_eq, hb_bit, hb_gt, hb_max, hb_min⟩ :=
            ((ih _ hlt hrem' bm bs).2) ⟨j0, (hbits j0).mpr ⟨hj0, hj0c⟩, hj0gt⟩
          refine ⟨b, by rw [hunf, hb_eq], ((hbits b).mp hb_bit).1, hb_gt, ?_, ?_⟩
          · intro j hj
            by_cases hjc : j = ctz rem
            · subst hjc; omega
            · exact hb_max j ((hbits j).mpr ⟨hj, hjc⟩)
          · intro j hj he
            by_cases hjc : j = ctz rem
            · subst hjc; omega
            · exact hb_min j ((hbits j).mpr ⟨hj, hjc⟩) he

theorem shiftRight_and_one (x i : Nat) : (x >>> i) &&& 1 = 0 ↔ x.testBit i = false := by
  rw [Nat.and_one_is_mod, Nat.shiftRight_eq_div_pow, Nat.testBit_to_div_mod]
  constructor
  · intro h
    simp [h]
  · intro h
    simp at h
    omega

theorem ApplyMove_of_testBit {E : Externals} {st : GameState} {mv : Nat}
    (h : (E.getMoves st.board.player st.board.opponent).testBit mv = true) :
    ApplyMove E st mv =
      some { board := PlayMove E st.board (E.getFlip mv st.board.player st.board.opponent),
             stm_is_black := !st.stm_is_black } := by
  rw [ApplyMove, if_neg]
  intro hc
  rw [(shiftRight_and_one _ _).mp hc] at h
  exact Bool.false_ne_true h

theorem ApplyMove_of_not_testBit {E : Externals} {st : GameState} {mv : Nat}
    (h : (E.getMoves st.board.player st.board.opponent).testBit mv = false) :
    ApplyMove E st mv = none := by
  rw [ApplyMove, if_pos]
  rw [shiftRight_and_one]
  exact h

/-- What the selection loop of `genmove` produces when the move mask is
nonempty and every evaluator score is below the `-1000000000` sentinel in
magnitude: the chosen square is a legal square of maximal negated score,
lowest-index among ties. -/
theorem genLoop_found (E : Externals) (p o : Nat)
    (hB : ∀ p' o', E.evaluate p' o' < 1000000000)
    (hm : E.getMoves p o ≠ 0) :
    ∃ b : Nat,
      genLoop E p o (E.getMoves p o) (E.getMoves_lt p o) (-1) (-1000000000) =
        ((b : Int), moveScore E p o b) ∧
      (E.getMoves p o).testBit b = true ∧
      (∀ j, (E.getMoves p o).testBit j = true → moveScore E p o j ≤ moveScore E p o b) ∧
      (∀ j, (E.getMoves p o).testBit j = true → moveScore E p o j = moveScore E p o b → b ≤ j) := by
  have hex : ∃ j, (E.getMoves p o).testBit j = true ∧
      (-1000000000 : Int) < moveScore E p o j := by
    refine ⟨ctz (E.getMoves p o), testBit_ctz_self _ hm, ?_⟩
    have hb := hB (E.newPlayer (E.getFlip (ctz (E.getMoves p o)) p o) o)
      (E.newOpponent (E.getFlip (ctz (E.getMoves p o)) p o) p)
    rw [moveScore]
    omega
  obtain ⟨b, h1, h2, h3, h4, h5⟩ :=
    (genLoop_spec E p o (E.getMoves p o) (E.getMoves_lt p o) (-1) (-1000000000)).2 hex
  exact ⟨b, h1, h2, h4, h5⟩

/-! ## Reduction lemmas: `dispatch` on each concrete verb -/

theorem dispatch_genmove (E : Externals) (el : Bool) (st : GameState) (id : Int)
    (ctok : String) (rest : List String) :
    dispatch E el st id ("genmove" :: ctok :: rest) =
      match ParseColor ctok with
      | none => (st, .err id "illegal color", false)
      | some is_black =>
        if el = false then (st, .err id "evals not loaded", false)
        else if is_black ≠ st.stm_is_black then (st, .err id "wrong color to play", false)
        else
          let p := st.board.player
          let o := st.board.opponent
          let moves := E.getMoves p o
          if moves = 0 then (ApplyPass E st, .ok id "PASS", false)
          else
            let bm := (genLoop E p o moves (E.getMoves_lt p o) (-1) (-1000000000)).1
            let st' := if bm < 0 then st else (ApplyMove E st bm.toNat).getD st
            (st', .ok id (SqToCoord bm.toNat), false) := rfl

theorem dispatch_play (E : Externals) (el : Bool) (st : GameState) (id : Int)
    (ctok mtok : String) (rest : List String) :
    dispatch E el st id ("play" :: ctok :: mtok :: rest) =
      match ParseColor ctok with
      | none => (st, .err id "illegal color", false)
      | some is_black =>
        match ParseCoord mtok with
        | none => (st, .err id "illegal move", false)
        | some c =>
          if is_black ≠ st.stm_is_black then (st, .err id "wrong color to play", false)
          else
            match c with
            | .pass => (ApplyPass E st, .ok id "", false)
            | .sq sq =>
              match ApplyMove E st sq with
              | none => (st, .err id "illegal move", false)
              | some st' => (st', .ok id "", false) := rfl

theorem dispatch_final_score (E : Externals) (el : Bool) (st : GameState) (id : Int)
    (rest : List String) :
    dispatch E el st id ("final_score" :: rest) =
      if IsOver E st = false then (st, .err id "game not over", false)
      else
        let nb := (CountDiscsAbs st).1
        let nw := (CountDiscsAbs st).2
        let diff : Int := (nb : Int) - (nw : Int)
        let r := if diff > 0 then "B+" ++ toString diff
                 else if diff < 0 then "W+" ++ toString (-diff)
                 else "0"
        (st, .ok id r, false) := rfl

/-- A concrete instance of the external modules, used to evaluate theorems
at concrete inputs: squares 0 and 2 are always legal, every score is 0. -/
def extTwoMoves : Externals where
  getMoves := fun _ _ => 5
  getFlip := fun mv _ _ => 2 ^ mv
  newPlayer := fun _ o => o
  newOpponent := fun _ p => p
  evaluate := fun _ _ => 0
  getMoves_lt := fun _ _ => by norm_num
  newPlayer_zero := fun _ => rfl
  newOpponent_zero := fun _ => rfl

/-- A concrete instance of the external modules with no legal moves for
either side (a terminal position everywhere). -/
def extNoMoves : Externals where
  getMoves := fun _ _ => 0
  getFlip := fun _ _ _ => 0
  newPlayer := fun _ o => o
  newOpponent := fun _ p => p
  evaluate := fun _ _ => 0
  getMoves_lt := fun _ _ => by norm_num
  newPlayer_zero := fun _ => rfl
  newOpponent_zero := fun _ => rfl

/-- C1: whenever the side to move has at least one legal move, the evaluator
table is loaded, and the supplied color matches the side to move, the
`genmove` handler plays and returns, as the success payload, a legal square
whose negated evaluator score of the resulting position is maximal, with
candidates enumerated in ascending square-index order by lowest-set-bit
extraction and ties kept at the earliest (lowest-index) square, since only a
strictly greater score replaces the current best.  (The evaluator-score
bound mirrors the `-1000000000` sentinel that initializes `best_score`.) -/
theorem c1_genmove_argmax (E : Externals) (st : GameState) (id : Int)
    (ctok : String) (rest : List String)
    (hB : ∀ p' o', E.evaluate p' o' < 1000000000)
    (hc : ParseColor ctok = some st.stm_is_black)
    (hm : E.getMoves st.board.player st.board.opponent ≠ 0) :
    ∃ b : Nat, ∃ stAfter : GameState,
      ApplyMove E st b = some stAfter ∧
      dispatch E true st id ("genmove" :: ctok :: rest) =
        (stAfter, Resp.ok id (SqToCoord b), false) ∧
      (E.getMoves st.board.player st.board.opponent).testBit b = true ∧
      (∀ j, (E.getMoves st.board.player st.board.opponent).testBit j = true →
        moveScore E st.board.player st.board.opponent j ≤
          moveScore E st.board.player st.board.opponent b) ∧
      (∀ j, (E.getMoves st.board.player st.board.opponent).testBit j = true →
        moveScore E st.board.player st.board.opponent j =
          moveScore E st.board.player st.board.opponent b → b ≤ j) := by
  obtain ⟨b, hgen, hbit, hmax, hmin⟩ :=
    genLoop_found E st.board.player st.board.opponent hB hm
  have happ := ApplyMove_of_testBit hbit
  refine ⟨b, _, happ, ?_, hbit, hmax, hmin⟩
  rw [dispatch_genmove, hc]
  simp only [ne_eq, not_true_eq_false, if_neg, if_false]
  rw [if_neg hm]
  simp only [hgen, Int.toNat_natCast]
  rw [if_neg (by simp), happ]
  rfl

/-- Witness for C1 at a concrete input (two legal squares, all scores tieat
0, so the lowest-index square 0 must win). -/
theorem c1_genmove_argmax_witness :
    ∃ b : Nat, ∃ stAfter : GameState,
      ApplyMove extTwoMoves Reset b = some stAfter ∧
      dispatch extTwoMoves true Reset (-1) ("genmove" :: "b" :: []) =
        (stAfter, Resp.ok (-1) (SqToCoord b), false) ∧
      (extTwoMoves.getMoves Reset.board.player Reset.board.opponent).testBit b = true ∧
      (∀ j, (extTwoMoves.getMoves Reset.board.player Reset.board.opponent).testBit j = true →
        moveScore extTwoMoves Reset.board.player Reset.board.opponent j ≤
          moveScore extTwoMoves Reset.board.player Reset.board.opponent b) ∧
      (∀ j, (extTwoMoves.getMoves Reset.board.player Reset.board.opponent).testBit j = true →
        moveScore extTwoMoves Reset.board.player Reset.board.opponent j =
          moveScore extTwoMoves Reset.board.player Reset.board.opponent b → b ≤ j) :=
  c1_genmove_argmax extTwoMoves Reset (-1) "b" []
    (fun p q => by show (0 : Int) < 1000000000; decide) (by decide) (by decide)

theorem ApplyMove_stm {E : Externals} {st st2 : GameState} {mv : Nat}
    (h : ApplyMove E st mv = some st2) : st2.stm_is_black = !st.stm_is_black := by
  rw [ApplyMove] at h
  split_ifs at h
  injection h with h'
  rw [← h']

/-- The tokens a line contributes to the dispatcher, after the optional
all-digits id token has been stripped. -/
def toksAfterId (line : String) : List String :=
  let toks := tokenize line
  let tok := toks.headD ""
  if tok ≠ "" ∧ tok.data.all Char.isDigit then toks.tail else toks

/-- The (lowercased) command verb of a line, as the dispatcher sees it. -/
def cmdOf (line : String) : String := strLower ((toksAfterId line).headD "")

theorem processLine_dispatch (E : Externals) (el : Bool) (st : GameState) (line : String) :
    processLine E el st line = none ∨
    ∃ id, processLine E el st line = some (dispatch E el st id (toksAfterId line)) := by
  by_cases hl : line = ""
  · subst hl
    exact Or.inr ⟨-1, rfl⟩
  · simp only [processLine, toksAfterId]
    rw [if_neg hl]
    split_ifs with h1 h2
    · exact Or.inr ⟨Int.ofNat (digitsVal ((tokenize line).headD "")), rfl⟩
    · exact Or.inl rfl
    · exact Or.inr ⟨-1, rfl⟩
/-- State discipline of the dispatcher: an error reply always leaves the
state untouched, and a success reply to `play` or `genmove` always toggles
the side to move exactly once. -/
theorem dispatch_state_discipline (E : Externals)
    (hB : ∀ p' o', E.evaluate p' o' < 1000000000) (el : Bool) (st : GameState)
    (id : Int) (toks : List String) :
    (∀ i m, (dispatch E el st id toks).2.1 = Resp.err i m →
      (dispatch E el st id toks).1 = st) ∧
    ((strLower (toks.headD "") = "play" ∨ strLower (toks.headD "") = "genmove") →
      ∀ i pl, (dispatch E el st id toks).2.1 = Resp.ok i pl →
        (dispatch E el st id toks).1.stm_is_black = !st.stm_is_black) := by
  simp only [dispatch]
  by_cases h1 : strLower (toks.headD "") = ""
  · rw [if_pos h1]
    refine ⟨fun i m h => ?_, fun hc i pl h => ?_⟩ <;> simp at h
  rw [if_neg h1]
  by_cases h2 : strLower (toks.headD "") = "quit" ∨ strLower (toks.headD "") = "exit"
  · rw [if_pos h2]
    refine ⟨fun i m h => by simp at h, ?_⟩
    rintro (hc | hc) i pl h <;> rcases h2 with hq | hq <;> rw [hc] at hq <;> simp at hq
  rw [if_neg h2]
  by_cases h3 : strLower (toks.headD "") = "clear_board"
  · rw [if_pos h3]
    refine ⟨fun i m h => by simp at h, ?_⟩
    rintro (hc | hc) i pl h <;> rw [hc] at h3 <;> simp at h3
  rw [if_neg h3]
  by_cases h4 : strLower (toks.headD "") = "play"
  · rw [if_pos h4]
    rcases hpc : ParseColor (toks.tail.headD "") with - | c
    · exact ⟨fun i m h => rfl, fun _ i pl h => by simp at h⟩
    rcases hco : ParseCoord (toks.tail.tail.headD "") with - | co
    · exact ⟨fun i m h => rfl, fun _ i pl h => by simp at h⟩
    simp only []
    by_cases hne : c ≠ st.stm_is_black
    · rw [if_pos hne]
      exact ⟨fun i m h => rfl, fun _ i pl h => by simp at h⟩
    rw [if_neg hne]
    rcases co with - | sq
    · exact ⟨fun i m h => by simp at h, fun _ i pl h => by simp [ApplyPass]⟩
    · simp only []
      rcases ham : ApplyMove E st sq with - | st2
      · exact ⟨fun i m h => rfl, fun _ i pl h => by simp at h⟩
      · exact ⟨fun i m h => by simp at h, fun _ i pl h => ApplyMove_stm ham⟩
  rw [if_neg h4]
  by_cases h5 : strLower (toks.headD "") = "genmove"
  · rw [if_pos h5]
    rcases hpc : ParseColor (toks.tail.headD "") with - | c
    · exact ⟨fun i m h => rfl, fun _ i pl h => by simp at h⟩
    simp only []
    by_cases hel : el = false
    · rw [if_pos hel]
      exact ⟨fun i m h => rfl, fun _ i pl h => by simp at h⟩
    rw [if_neg hel]
    by_cases hne : c ≠ st.stm_is_black
    · rw [if_pos hne]
      exact ⟨fun i m h => rfl, fun _ i pl h => by simp at h⟩
    rw [if_neg hne]
    by_cases hm0 : E.getMoves st.board.player st.board.opponent = 0
    · rw [if_pos hm0]
      exact ⟨fun i m h => by simp at h, fun _ i pl h => by simp [ApplyPass]⟩
    · rw [if_neg hm0]
      refine ⟨fun i m h => by simp at h, fun _ i pl _ => ?_⟩
      obtain ⟨b, hgen, hbit, -, -⟩ :=
        genLoop_found E st.board.player st.board.opponent hB hm0
      simp only [hgen, Int.toNat_natCast]
      rw [if_neg (by omega), ApplyMove_of_testBit hbit]
      rfl
  rw [if_neg h5]
  by_cases h6 : strLower (toks.headD "") = "final_score"
  · rw [if_pos h6]
    by_cases hov : IsOver E st = false
    · rw [if_pos hov]
      exact ⟨fun i m h => rfl, fun hc i pl h => by simp at h⟩
    · rw [if_neg hov]
      refine ⟨fun i m h => by simp at h, ?_⟩
      rintro (hc | hc) i pl h <;> rw [hc] at h6 <;> simp at h6
  rw [if_neg h6]
  exact ⟨fun i m h => rfl, fun hc i pl h => by simp at h⟩

/-- C3: every input line answered with an error reply leaves the game state
(both bitmasks and the side-to-move flag) exactly as it was, and every
accepted `play`/`genmove` line (pass included) toggles the side to move
exactly once.  (The evaluator-score bound mirrors the `-1000000000`
sentinel initializing `best_score`.) -/
theorem c3_reject_unchanged_accept_toggle (E : Externals)
    (hB : ∀ p' o', E.evaluate p' o' < 1000000000)
    (el : Bool) (st : GameState) (line : String) (st' : GameState) (r : Resp) (q : Bool)
    (h : processLine E el st line = some (st', r, q)) :
    (∀ i m, r = Resp.err i m → st' = st) ∧
    ((cmdOf line = "play" ∨ cmdOf line = "genmove") →
      ∀ i pl, r = Resp.ok i pl → st'.stm_is_black = !st.stm_is_black) := by
  rcases processLine_dispatch E el st line with hnone | ⟨id, heq⟩
  · rw [hnone] at h
    exact absurd h (by simp)
  · rw [heq] at h
    have h2 : dispatch E el st id (toksAfterId line) = (st', r, q) := Option.some.inj h
    obtain ⟨d1, d2⟩ := dispatch_state_discipline E hB el st id (toksAfterId line)
    rw [h2] at d1 d2
    exact ⟨fun i m hr => d1 i m hr, fun hc i pl hk => d2 hc i pl hk⟩

/-- Witness for C3 at a concrete erroring line. -/
theorem c3_reject_unchanged_accept_toggle_witness :
    (∀ i m, Resp.err (-1 : Int) "illegal color" = Resp.err i m → Reset = Reset) ∧
    ((cmdOf "play" = "play" ∨ cmdOf "play" = "genmove") →
      ∀ i pl, Resp.err (-1 : Int) "illegal color" = Resp.ok i pl →
        Reset.stm_is_black = !Reset.stm_is_black) :=
  c3_reject_unchanged_accept_toggle extTwoMoves
    (fun p q => by show (0 : Int) < 1000000000; decide) true Reset "play"
    Reset (Resp.err (-1) "illegal color") false (by decide)

/-- C4: a `play` with well-formed color and coordinate tokens whose color is
not the side to move errors "wrong color to play" with the state unchanged,
and the turn check precedes the legality check (no legality hypothesis is
needed, the coordinate may be any square or a pass). -/
theorem c4_play_wrong_color (E : Externals) (el : Bool) (st : GameState) (id : Int)
    (ctok mtok : String) (rest : List String) (c : Bool) (co : Coord)
    (hc : ParseColor ctok = some c)
    (hm : ParseCoord mtok = some co)
    (hne : c ≠ st.stm_is_black) :
    dispatch E el st id ("play" :: ctok :: mtok :: rest) =
      (st, Resp.err id "wrong color to play", false) := by
  rw [dispatch_play, hc, hm]
  simp only []
  rw [if_pos hne]

/-- Witness for C4: white plays while black is to move. -/
theorem c4_play_wrong_color_witness :
    dispatch extTwoMoves true Reset (-1) ("play" :: "w" :: "a1" :: []) =
      (Reset, Resp.err (-1) "wrong color to play", false) :=
  c4_play_wrong_color extTwoMoves true Reset (-1) "w" "a1" [] false (Coord.sq 0)
    (by decide) (by decide) (by decide)

/-- C5: `final_score` errors "game not over" exactly when the game is not
over (leaving the state unchanged), and on a finished game replies with
`B+diff`, `W+(-diff)` or `0` for `diff = blackDiscs - whiteDiscs` computed
from the mover/other masks through `stm_is_black`. -/
theorem c5_final_score (E : Externals) (el : Bool) (st : GameState) (id : Int)
    (rest : List String) :
    (dispatch E el st id ("final_score" :: rest) =
        (st, Resp.err id "game not over", false) ↔ IsOver E st = false) ∧
    (IsOver E st = true →
      dispatch E el st id ("final_score" :: rest) =
        (st, Resp.ok id
          (if ((CountDiscsAbs st).1 : Int) - ((CountDiscsAbs st).2 : Int) > 0 then
            "B+" ++ toString (((CountDiscsAbs st).1 : Int) - ((CountDiscsAbs st).2 : Int))
          else if ((CountDiscsAbs st).1 : Int) - ((CountDiscsAbs st).2 : Int) < 0 then
            "W+" ++ toString (-(((CountDiscsAbs st).1 : Int) - ((CountDiscsAbs st).2 : Int)))
          else "0"), false)) := by
  constructor
  · constructor
    · intro h
      by_cases hov : IsOver E st = false
      · exact hov
      · rw [dispatch_final_score, if_neg hov] at h
        simp at h
    · intro hov
      rw [dispatch_final_score, if_pos hov]
  · intro hov
    rw [dispatch_final_score, if_neg (by simp [hov])]

/-- Witness for C5 on a finished game (the terminal externals instance). -/
theorem c5_final_score_witness :
    IsOver extNoMoves Reset = true ∧
    dispatch extNoMoves true Reset (-1) ("final_score" :: []) =
      (Reset, Resp.ok (-1)
        (if ((CountDiscsAbs Reset).1 : Int) - ((CountDiscsAbs Reset).2 : Int) > 0 then
          "B+" ++ toString (((CountDiscsAbs Reset).1 : Int) - ((CountDiscsAbs Reset).2 : Int))
        else if ((CountDiscsAbs Reset).1 : Int) - ((CountDiscsAbs Reset).2 : Int) < 0 then
          "W+" ++ toString (-(((CountDiscsAbs Reset).1 : Int) - ((CountDiscsAbs Reset).2 : Int)))
        else "0"), false) :=
  ⟨by decide, (c5_final_score extNoMoves true Reset (-1) []).2 (by decide)⟩

/-- C6: `genmove` with a matching color, the evaluator loaded and no legal
move replies "PASS", toggles the side to move and swaps the two masks
without changing occupancy. -/
theorem c6_genmove_pass (E : Externals) (st : GameState) (id : Int)
    (ctok : String) (rest : List String)
    (hc : ParseColor ctok = some st.stm_is_black)
    (hm : E.getMoves st.board.player st.board.opponent = 0) :
    dispatch E true st id ("genmove" :: ctok :: rest) =
      ({ board := { player := st.board.opponent, opponent := st.board.player },
         stm_is_black := !st.stm_is_black }, Resp.ok id "PASS", false) := by
  rw [dispatch_genmove, hc]
  simp only []
  rw [if_neg (by simp), if_neg (by simp), if_pos hm]
  unfold ApplyPass PlayMove
  rw [E.newPlayer_zero, E.newOpponent_zero]

/-- Witness for C6. -/
theorem c6_genmove_pass_witness :
    dispatch extNoMoves true Reset (-1) ("genmove" :: "b" :: []) =
      ({ board := { player := Reset.board.opponent, opponent := Reset.board.player },
         stm_is_black := !Reset.stm_is_black }, Resp.ok (-1) "PASS", false) :=
  c6_genmove_pass extNoMoves Reset (-1) "b" [] (by decide) (by decide)

/-- C8 (amended): whenever the evaluator table is not loaded, every
`genmove` whose color token is well formed errors "evals not loaded" with
the state unchanged, regardless of the board state.  The load flag is fixed
for the whole request loop (the load happens once, before the loop, and is
never retried), so this holds for the lifetime of the process. -/
theorem c8_genmove_evals_not_loaded (E : Externals) (st : GameState) (id : Int)
    (ctok : String) (rest : List String) (c : Bool)
    (hc : ParseColor ctok = some c) :
    dispatch E false st id ("genmove" :: ctok :: rest) =
      (st, Resp.err id "evals not loaded", false) := by
  rw [dispatch_genmove, hc]
  rfl

/-- C8 counterexample: a `genmove` with a malformed color token errors
"illegal color", not "evals not loaded", even though the evaluator is not
loaded — the color check runs first. -/
theorem c8_counterexample :
    dispatch extNoMoves false Reset (-1) ("genmove" :: "x" :: []) =
      (Reset, Resp.err (-1) "illegal color", false) ∧
    Resp.err (-1 : Int) "illegal color" ≠ Resp.err (-1) "evals not loaded" :=
  ⟨by decide, by decide⟩

/-- Witness for C8 (amended). -/
theorem c8_genmove_evals_not_loaded_witness :
    dispatch extNoMoves false Reset (-1) ("genmove" :: "b" :: []) =
      (Reset, Resp.err (-1) "evals not loaded", false) :=
  c8_genmove_evals_not_loaded extNoMoves Reset (-1) "b" [] true (by decide)

/-- C9 (code bug): a line whose leading all-digits id token exceeds
`INT_MAX` makes the id extraction (`std::stoi`) throw an uncaught
`std::out_of_range`, terminating the process instead of producing a
request-scoped error reply; `none` is the embedding's crash value. -/
theorem c9_stoi_overflow_aborts :
    processLine extNoMoves true Reset "9999999999" = none := by decide

/-- C10: when the legal-move mask is nonzero and every evaluator score has
absolute value below 1000000000, the selection loop ends with `best_move` a
set bit of the mask — never the -1 sentinel — so the subsequent internal
`applyMove` receives a legal square and cannot fail. -/
theorem c10_selection_loop_safe (E : Externals) (st : GameState)
    (hB : ∀ p' o', (E.evaluate p' o').natAbs < 1000000000)
    (hm : E.getMoves st.board.player st.board.opponent ≠ 0) :
    ∃ b : Nat,
      (genLoop E st.board.player st.board.opponent
          (E.getMoves st.board.player st.board.opponent)
          (E.getMoves_lt st.board.player st.board.opponent) (-1) (-1000000000)).1 =
        (b : Int) ∧
      ((b : Int) ≠ -1) ∧
      (E.getMoves st.board.player st.board.opponent).testBit b = true ∧
      ApplyMove E st b ≠ none := by
  have hB' : ∀ p' o', E.evaluate p' o' < 1000000000 := fun p' o' => by
    have := hB p' o'
    omega
  obtain ⟨b, hgen, hbit, -, -⟩ :=
    genLoop_found E st.board.player st.board.opponent hB' hm
  refine ⟨b, by rw [hgen], by omega, hbit, ?_⟩
  rw [ApplyMove_of_testBit hbit]
  simp

/-- Witness for C10. -/
theorem c10_selection_loop_safe_witness :
    ∃ b : Nat,
      (genLoop extTwoMoves Reset.board.player Reset.board.opponent
          (extTwoMoves.getMoves Reset.board.player Reset.board.opponent)
          (extTwoMoves.getMoves_lt Reset.board.player Reset.board.opponent)
          (-1) (-1000000000)).1 = (b : Int) ∧
      ((b : Int) ≠ -1) ∧
      (extTwoMoves.getMoves Reset.board.player Reset.board.opponent).testBit b = true ∧
      ApplyMove extTwoMoves Reset b ≠ none :=
  c10_selection_loop_safe extTwoMoves Reset
    (fun p q => by show (0 : Int).natAbs < 1000000000; decide) (by decide)

/-- C2: on each of the 64 valid lowercase coordinate strings ("a1".."h8",
the string with file character `'a' + x` and rank character `'1' + y`),
parsing yields the square `y*8 + x` (not a pass) and formatting that square
yields the same string back. -/
theorem c2_coord_roundtrip (x y : Nat) (hx : x < 8) (hy : y < 8) :
    ParseCoord (String.mk [Char.ofNat ('a'.toNat + x), Char.ofNat ('1'.toNat + y)]) =
      some (Coord.sq (y * 8 + x)) ∧
    SqToCoord (y * 8 + x) =
      String.mk [Char.ofNat ('a'.toNat + x), Char.ofNat ('1'.toNat + y)] := by
  interval_cases x <;> interval_cases y <;> exact ⟨by decide, by decide⟩

/-- Witness for C2 at "a1". -/
theorem c2_coord_roundtrip_witness :
    ParseCoord (String.mk [Char.ofNat ('a'.toNat + 0), Char.ofNat ('1'.toNat + 0)]) =
      some (Coord.sq (0 * 8 + 0)) ∧
    SqToCoord (0 * 8 + 0) =
      String.mk [Char.ofNat ('a'.toNat + 0), Char.ofNat ('1'.toNat + 0)] :=
  c2_coord_roundtrip 0 0 (by norm_num) (by norm_num)

/-- C7 counterexample: the pass token is not case-insensitive — "Pass" and
"pAsS" are rejected as invalid, while the claim says any mixed-case "pass"
is accepted. -/
theorem c7_counterexample : ParseCoord "Pass" = none ∧ ParseCoord "pAsS" = none := by
  decide

/-- C7 (amended): the pass token is accepted exactly in the two spellings
"pass" and "PASS"; a two-character token is accepted exactly when its first
character is in 'a'..'h' ignoring case and its second character is in
'1'..'8'; every other token is rejected. -/
theorem c7_parse_coord_characterization :
    (ParseCoord "pass" = some Coord.pass ∧ ParseCoord "PASS" = some Coord.pass) ∧
    (∀ s, ParseCoord s = some Coord.pass → s = "pass" ∨ s = "PASS") ∧
    (∀ s c0 c1, s.data = [c0, c1] →
      ('a' ≤ c0.toLower ∧ c0.toLower ≤ 'h' ∧ '1' ≤ c1 ∧ c1 ≤ '8') →
      ParseCoord s =
        some (Coord.sq ((c1.toNat - '1'.toNat) * 8 + (c0.toLower.toNat - 'a'.toNat)))) ∧
    (∀ s c0 c1, s.data = [c0, c1] →
      ¬('a' ≤ c0.toLower ∧ c0.toLower ≤ 'h' ∧ '1' ≤ c1 ∧ c1 ≤ '8') →
      ParseCoord s = none) ∧
    (∀ s, s.data.length ≠ 2 → s ≠ "pass" → s ≠ "PASS" → ParseCoord s = none) := by
  refine ⟨by decide, ?_, ?_, ?_, ?_⟩
  · intro s h
    by_cases hp : s = "PASS" ∨ s = "pass"
    · tauto
    · exfalso
      rw [ParseCoord, if_neg hp] at h
      rcases hd : s.data with - | ⟨a, - | ⟨b, - | ⟨d, l⟩⟩⟩
      · rw [hd] at h
        simp at h
      · rw [hd] at h
        simp at h
      · rw [hd] at h
        simp only [] at h
        split_ifs at h <;> simp at h
      · rw [hd] at h
        simp at h
  · intro s c0 c1 hs hcond
    obtain ⟨h1, h2, h3, h4⟩ := hcond
    have hne : ¬(s = "PASS" ∨ s = "pass") := by
      rintro (rfl | rfl)
      · rw [show ("PASS" : String).data = ['P', 'A', 'S', 'S'] from rfl] at hs
        simp at hs
      · rw [show ("pass" : String).data = ['p', 'a', 's', 's'] from rfl] at hs
        simp at hs
    rw [ParseCoord, if_neg hne, hs]
    simp only []
    have e1 : ¬(c0.toLower < 'a' ∨ 'h' < c0.toLower) := by
      rintro (h | h)
      · exact absurd h1 (not_le.mpr h)
      · exact absurd h2 (not_le.mpr h)
    have e2 : ¬(c1 < '1' ∨ '8' < c1) := by
      rintro (h | h)
      · exact absurd h3 (not_le.mpr h)
      · exact absurd h4 (not_le.mpr h)
    rw [if_neg e1, if_neg e2]
  · intro s c0 c1 hs hcond
    have hne : ¬(s = "PASS" ∨ s = "pass") := by
      rintro (rfl | rfl)
      · rw [show ("PASS" : String).data = ['P', 'A', 'S', 'S'] from rfl] at hs
        simp at hs
      · rw [show ("pass" : String).data = ['p', 'a', 's', 's'] from rfl] at hs
        simp at hs
    rw [ParseCoord, if_neg hne, hs]
    simp only []
    by_cases e1 : c0.toLower < 'a' ∨ 'h' < c0.toLower
    · rw [if_pos e1]
    · rw [if_neg e1]
      by_cases e2 : c1 < '1' ∨ '8' < c1
      · rw [if_pos e2]
      · exfalso
        push_neg at e1 e2
        exact hcond ⟨e1.1, e1.2, e2.1, e2.2⟩
  · intro s hlen h1 h2
    have hne : ¬(s = "PASS" ∨ s = "pass") := by tauto
    rw [ParseCoord, if_neg hne]
    rcases hd : s.data with - | ⟨a, - | ⟨b, - | ⟨d, l⟩⟩⟩
    · rfl
    · rfl
    · exfalso
      rw [hd] at hlen
      simp at hlen
    · rfl

/-- Witness for C7 (amended), at the token "h8". -/
theorem c7_parse_coord_characterization_witness :
    ParseCoord "h8" =
      some (Coord.sq (('8'.toNat - '1'.toNat) * 8 + ('h'.toLower.toNat - 'a'.toNat))) :=
  c7_parse_coord_characterization.2.2.1 "h8" 'h' '8' rfl (by decide)
